import Mathlib

/-
  Verification of the replicated money-transfer ledger (blockchain-paxos).

  Shallow embedding of utils.py, blockchain.py, paxos.py and the sync part of
  node.py.  Python strings are Lean String, Python int is Lean Int, Python
  dictionaries are association lists in insertion order (first occurrence is
  the binding that reads and in-place updates see, a missing key on `d[k] += v`
  is a KeyError and is modelled by Option), and the SHA-256 digest is computed
  for real over the UTF-8 bytes, as hashlib does.
-/

set_option maxRecDepth 8000

namespace Utils

/-- Modulus of 32-bit words. -/
def M32 : Nat := 4294967296

/-- Addition modulo 2 to the 32. -/
def add32 (a b : Nat) : Nat := (a + b) % M32

/-- Rotate a 32-bit word right by n bits. -/
def rotr (n x : Nat) : Nat := x / 2 ^ n + x % 2 ^ n * 2 ^ (32 - n)

def bigS0 (a : Nat) : Nat := rotr 2 a ^^^ rotr 13 a ^^^ rotr 22 a
def bigS1 (e : Nat) : Nat := rotr 6 e ^^^ rotr 11 e ^^^ rotr 25 e
def smallS0 (w : Nat) : Nat := rotr 7 w ^^^ rotr 18 w ^^^ w / 2 ^ 3
def smallS1 (w : Nat) : Nat := rotr 17 w ^^^ rotr 19 w ^^^ w / 2 ^ 10

def chF (e f g : Nat) : Nat := (e &&& f) ^^^ ((e ^^^ 4294967295) &&& g)
def majF (a b c : Nat) : Nat := (a &&& b) ^^^ (a &&& c) ^^^ (b &&& c)

/-- The 64 SHA-256 round constants. -/
def shaK : List Nat :=
  [1116352408, 1899447441, 3049323471, 3921009573, 961987163, 1508970993,
   2453635748, 2870763221, 3624381080, 310598401, 607225278, 1426881987,
   1925078388, 2162078206, 2614888103, 3248222580, 3835390401, 4022224774,
   264347078, 604807628, 770255983, 1249150122, 1555081692, 1996064986,
   2554220882, 2821834349, 2952996808, 3210313671, 3336571891, 3584528711,
   113926993, 338241895, 666307205, 773529912, 1294757372, 1396182291,
   1695183700, 1986661051, 2177026350, 2456956037, 2730485921, 2820302411,
   3259730800, 3345764771, 3516065817, 3600352804, 4094571909, 275423344,
   430227734, 506948616, 659060556, 883997877, 958139571, 1322822218,
   1537002063, 1747873779, 1955562222, 2024104815, 2227730452, 2361852424,
   2428436474, 2756734187, 3204031479, 3329325298]

/-- The initial SHA-256 hash state. -/
def shaH0 : List Nat :=
  [1779033703, 3144134277, 1013904242, 2773480762,
   1359893119, 2600822924, 528734635, 1541459225]

/-- k bytes of n, big-endian. -/
def bytesBE : Nat → Nat → List Nat
  | 0, _ => []
  | k + 1, n => bytesBE k (n / 256) ++ [n % 256]

/-- SHA-256 padding: append 0x80, zeros up to 56 mod 64, then the 8-byte bit length. -/
def padMessage (msg : List Nat) : List Nat :=
  let l := msg.length
  msg ++ [0x80] ++ List.replicate ((119 - l % 64) % 64) 0 ++ bytesBE 8 (l * 8)

/-- Group bytes into 32-bit words, big-endian. -/
def wordsOfBytes : List Nat → List Nat
  | a :: b :: c :: d :: rest => (((a * 256 + b) * 256 + c) * 256 + d) :: wordsOfBytes rest
  | _ => []

/-- Extend the reversed message schedule by the given number of words. -/
def extendRev (rw : List Nat) : Nat → List Nat
  | 0 => rw
  | n + 1 =>
    let w := add32 (add32 (rw.getD 15 0) (smallS0 (rw.getD 14 0)))
                   (add32 (rw.getD 6 0) (smallS1 (rw.getD 1 0)))
    extendRev (w :: rw) n

/-- One compression round on the 8-word state. -/
def roundStep (st : List Nat) (kw : Nat × Nat) : List Nat :=
  match st with
  | [a, b, c, d, e, f, g, h] =>
    let t1 := add32 (add32 (add32 h (bigS1 e)) (add32 (chF e f g) kw.1)) kw.2
    let t2 := add32 (bigS0 a) (majF a b c)
    [add32 t1 t2, a, b, c, add32 d t1, e, f, g]
  | s => s

/-- Compress one 16-word block into the running hash state. -/
def compress (hs ws : List Nat) : List Nat :=
  let w64 := (extendRev ws.reverse 48).reverse
  let fin := List.foldl roundStep hs (shaK.zip w64)
  List.zipWith add32 hs fin

/-- Process the word stream, 16 words per block. -/
def processWords (hs : List Nat) : List Nat → List Nat
  | w0 :: w1 :: w2 :: w3 :: w4 :: w5 :: w6 :: w7 ::
    w8 :: w9 :: w10 :: w11 :: w12 :: w13 :: w14 :: w15 :: rest =>
    processWords
      (compress hs [w0, w1, w2, w3, w4, w5, w6, w7, w8, w9, w10, w11, w12, w13, w14, w15]) rest
  | _ => hs

def hexChars : List Char := String.data "0123456789abcdef"

def hexDigit (n : Nat) : Char := hexChars.getD n '0'

def hexWord (w : Nat) : List Char :=
  [hexDigit (w / 16 ^ 7 % 16), hexDigit (w / 16 ^ 6 % 16), hexDigit (w / 16 ^ 5 % 16),
   hexDigit (w / 16 ^ 4 % 16), hexDigit (w / 16 ^ 3 % 16), hexDigit (w / 16 ^ 2 % 16),
   hexDigit (w / 16 % 16), hexDigit (w % 16)]

/-- UTF-8 encoding of one character, as byte values. -/
def utf8Bytes (c : Char) : List Nat :=
  let n := c.toNat
  if n < 0x80 then [n]
  else if n < 0x800 then [0xC0 + n / 64, 0x80 + n % 64]
  else if n < 0x10000 then [0xE0 + n / 4096, 0x80 + n / 64 % 64, 0x80 + n % 64]
  else [0xF0 + n / 262144, 0x80 + n / 4096 % 64, 0x80 + n / 64 % 64, 0x80 + n % 64]

def strBytes (s : String) : List Nat := (s.data.map utf8Bytes).flatten

/-- Model of utils.compute_hash: lowercase 64-hex-char SHA-256 digest of the UTF-8
bytes of the input string. -/
def compute_hash (s : String) : String :=
  String.mk (((processWords shaH0 (wordsOfBytes (padMessage (strBytes s)))).map hexWord).flatten)

/-- Model of utils.verify_nonce: true iff the digest is nonempty and its final hex
character is one of 0, 1, 2, 3, 4. -/
def verify_nonce (h : String) : Bool :=
  match h.data.getLast? with
  | none => false
  | some c => c = '0' || c = '1' || c = '2' || c = '3' || c = '4'

/-- Decimal digits of a natural number, most significant first (fuel-driven). -/
def digitsAux : Nat → Nat → List Char
  | 0, _ => []
  | fuel + 1, n =>
    if n < 10 then [hexDigit n] else digitsAux fuel (n / 10) ++ [hexDigit (n % 10)]

/-- Canonical base-10 rendering of a natural number, as Python str does. -/
def natDec (n : Nat) : String := String.mk (digitsAux (n + 1) n)

/-- Canonical base-10 rendering of an integer, with a leading minus sign for
negatives and no padding, as the Python f-string renders an int. -/
def intDec : Int → String
  | Int.ofNat n => natDec n
  | Int.negSucc m => "-" ++ natDec (m + 1)

end Utils

namespace Chain

/-- A Python dict from peer-id to balance, in insertion order; the first
occurrence of a key is its binding. -/
abbrev Table := List (String × Int)

/-- Model of dict.get(k, d): the first binding of k, or the default. -/
def tget : Table → String → Int → Int
  | [], _, d => d
  | p :: rest, k, d => if p.1 = k then p.2 else tget rest k d

/-- Model of dict membership: k in d. -/
def hasKey : Table → String → Bool
  | [], _ => false
  | p :: rest, k => p.1 = k || hasKey rest k

/-- Model of dict assignment d[k] = v: update the first binding in place, or
append a new binding at the end. -/
def tset : Table → String → Int → Table
  | [], k, v => [(k, v)]
  | p :: rest, k, v => if p.1 = k then (k, v) :: rest else p :: tset rest k v

/-- Model of d[k] += v: update the first binding of k in place; a missing key is
a KeyError, modelled as none. -/
def tadd : Table → String → Int → Option Table
  | [], _, _ => none
  | p :: rest, k, v =>
    if p.1 = k then some ((k, p.2 + v) :: rest)
    else (tadd rest k v).map (p :: ·)

/-- Sum of all values of the table. -/
def sumValues (t : Table) : Int := (t.map Prod.snd).sum

/-- Model of blockchain.Block: the five stored fields; the hash attribute is
always recomputed by the constructor, so it is a derived function here. -/
structure Block where
  sender : String
  receiver : String
  amount : Int
  nonce : String
  prev_hash : String
deriving DecidableEq, Repr

/-- The transaction string sender, receiver and decimal amount concatenated. -/
def Block.txnString (b : Block) : String :=
  b.sender ++ b.receiver ++ Utils.intDec b.amount

/-- The PoW digest of a block: SHA256 of the transaction string and the nonce,
excluding prev_hash. -/
def Block.powHash (b : Block) : String :=
  Utils.compute_hash (b.txnString ++ b.nonce)

/-- Model of Block.compute_block_hash, the value of the hash attribute: SHA256 of
the transaction string, the nonce and prev_hash. -/
def Block.hash (b : Block) : String :=
  Utils.compute_hash (b.txnString ++ b.nonce ++ b.prev_hash)

/-- The serialized form of a block, as Block.to_dict produces and the wire and
the state file carry: the five fields plus a stored hash field. -/
structure BlockDict where
  sender : String
  receiver : String
  amount : Int
  nonce : String
  prev_hash : String
  hash : String
deriving DecidableEq, Repr

/-- Model of Block.to_dict. -/
def Block.to_dict (b : Block) : BlockDict :=
  ⟨b.sender, b.receiver, b.amount, b.nonce, b.prev_hash, b.hash⟩

/-- Model of Block.from_dict: reconstruct the block from the five stored fields,
recomputing the hash attribute.  The source compares the recomputed hash with
the stored hash field and on a mismatch executes pass, so no rejection happens
and the stored hash field is discarded either way. -/
def Block.from_dict (d : BlockDict) : Block :=
  ⟨d.sender, d.receiver, d.amount, d.nonce, d.prev_hash⟩

/-- The 64-zero-hex genesis pointer. -/
def genesisHash : String := String.mk (List.replicate 64 '0')

/-- Model of blockchain.Blockchain inner state: node id, committed chain and the
balance table. -/
structure Blockchain where
  node_id : String
  chain : List Block
  balance_table : Table
deriving DecidableEq, Repr

/-- Model of Blockchain.initialize_balances: nodes 1 to 5 start with 100. -/
def initialBalances : Table :=
  [("1", 100), ("2", 100), ("3", 100), ("4", 100), ("5", 100)]

/-- A freshly constructed Blockchain for a node. -/
def Blockchain.init (node_id : String) : Blockchain :=
  ⟨node_id, [], initialBalances⟩

/-- Model of Blockchain.get_balance: dict get with default 0. -/
def Blockchain.get_balance (bc : Blockchain) (k : String) : Int :=
  tget bc.balance_table k 0

/-- The hash of the last block, or the genesis pointer for an empty chain. -/
def Blockchain.tipHash (bc : Blockchain) : String :=
  match bc.chain.getLast? with
  | some b => b.hash
  | none => genesisHash

/-- Model of Blockchain.create_block: refuse when the own balance is below the
amount, otherwise build the candidate block at the current tip.  The mined
nonce is the outcome of the random search in calculate_nonce and is passed in
explicitly. -/
def Blockchain.create_block (bc : Blockchain) (receiver : String) (amount : Int)
    (nonce : String) : Option Block :=
  if bc.get_balance bc.node_id < amount then none
  else some ⟨bc.node_id, receiver, amount, nonce, bc.tipHash⟩

/-- Model of Blockchain.add_block.  Returns the resulting state and some of the
returned boolean; none models the KeyError that the source raises when the
sender or the receiver is not a key of the balance table, after the block has
already been appended and any earlier in-place update has been applied. -/
def Blockchain.add_block (bc : Blockchain) (b : Block) : Blockchain × Option Bool :=
  if bc.chain.any (fun e => e.hash = b.hash) then (bc, some true)
  else if b.prev_hash ≠ bc.tipHash then (bc, some false)
  else if ¬ Utils.verify_nonce b.powHash then (bc, some false)
  else if bc.get_balance b.sender < b.amount then (bc, some false)
  else
    let bc1 : Blockchain := { bc with chain := bc.chain ++ [b] }
    match tadd bc1.balance_table b.sender (-b.amount) with
    | none => (bc1, none)
    | some t1 =>
      match tadd t1 b.receiver b.amount with
      | none => ({ bc1 with balance_table := t1 }, none)
      | some t2 => ({ bc1 with balance_table := t2 }, some true)

/-- The JSON object that Blockchain.save_to_disk writes: the serialized chain and
the balance table. -/
structure SaveData where
  chain : List BlockDict
  balance_table : Table
deriving DecidableEq, Repr

/-- Model of Blockchain.save_to_disk payload. -/
def Blockchain.saveData (bc : Blockchain) : SaveData :=
  ⟨bc.chain.map Block.to_dict, bc.balance_table⟩

/-- Model of Blockchain.load_from_disk on successfully parsed file data:
reconstruct every block with Block.from_dict and install the stored balance
table as is. -/
def Blockchain.load_from_disk (bc : Blockchain) (d : SaveData) : Blockchain :=
  { bc with chain := d.chain.map Block.from_dict, balance_table := d.balance_table }

end Chain

namespace Paxos

/-- A ballot, as the 3-element array the source carries: seq, proposer id,
depth, in that component order. -/
abbrev Ballot := Int × Int × Int

def seqOf : Ballot → Int
  | (s, _, _) => s

def idOf : Ballot → Int
  | (_, i, _) => i

def depthOf : Ballot → Int
  | (_, _, d) => d

/-- The sentinel no-ballot value. -/
def noBallot : Ballot := (-1, -1, -1)

/-- Model of PaxosInstance.compare_ballots: depth first, then seq, then node id;
1 when the first ballot is greater, -1 when smaller, 0 when equal. -/
def compare_ballots (b1 b2 : Ballot) : Int :=
  if depthOf b1 ≠ depthOf b2 then (if depthOf b1 > depthOf b2 then 1 else -1)
  else if seqOf b1 ≠ seqOf b2 then (if seqOf b1 > seqOf b2 then 1 else -1)
  else if idOf b1 ≠ idOf b2 then (if idOf b1 > idOf b2 then 1 else -1)
  else 0

/-- The comparison key of a ballot, most significant component first: depth,
then seq, then proposer id. -/
def key (b : Ballot) : Int × Int × Int := (depthOf b, seqOf b, idOf b)

/-- Strict lexicographic order on comparison keys. -/
def lexLt : Int × Int × Int → Int × Int × Int → Prop
  | (a1, b1, c1), (a2, b2, c2) =>
    a1 < a2 ∨ (a1 = a2 ∧ (b1 < b2 ∨ (b1 = b2 ∧ c1 < c2)))

/-- A PROMISE message: the echoed prepare ballot plus the acceptor state. -/
structure PromiseMsg where
  sender : Int
  ballot : Ballot
  accepted_ballot : Ballot
  accepted_val : Option Chain.BlockDict
deriving DecidableEq, Repr

/-- An ACCEPT message: the leader ballot and the chosen value. -/
structure AcceptMsg where
  sender : Int
  ballot : Ballot
  val : Chain.BlockDict
deriving DecidableEq, Repr

/-- A PREPARE message. -/
structure PrepareMsg where
  sender : Int
  ballot : Ballot
deriving DecidableEq, Repr

/-- The promises dictionary: sender id to the pair of accepted ballot and
accepted value, in insertion order. -/
abbrev Promises := List (Int × (Ballot × Option Chain.BlockDict))

/-- Model of dict assignment promises[sender] = v: replace the first binding in
place or append at the end. -/
def dictSet : Promises → Int → (Ballot × Option Chain.BlockDict) → Promises
  | [], k, v => [(k, v)]
  | p :: rest, k, v => if p.1 = k then (k, v) :: rest else p :: dictSet rest k v

/-- Model of the PaxosInstance mutable fields (timer omitted: it carries no
value the claims mention). -/
structure PaxosInstance where
  node_id : Int
  num_nodes : Nat
  seq_num : Int
  my_proposal_val : Option Chain.Block
  promises : Promises
  accepts_received : List Int
  is_leader : Bool
  max_ballot_promised : Ballot
  accepted_ballot : Ballot
  accepted_val : Option Chain.BlockDict
  decided_blocks : List String
deriving DecidableEq, Repr

/-- Model of PaxosInstance.handle_prepare: on a strictly greater ballot record
it and emit a PROMISE carrying the acceptor state, otherwise stay silent. -/
def handle_prepare (st : PaxosInstance) (msg : PrepareMsg) :
    PaxosInstance × Option PromiseMsg :=
  if compare_ballots msg.ballot st.max_ballot_promised = 1 then
    ({ st with max_ballot_promised := msg.ballot },
     some ⟨st.node_id, msg.ballot, st.accepted_ballot, st.accepted_val⟩)
  else (st, none)

/-- Model of PaxosInstance.handle_accept: on a ballot at least the promise bound,
record the accepted ballot and value and emit ACCEPTED. -/
def handle_accept (st : PaxosInstance) (msg : AcceptMsg) :
    PaxosInstance × Option AcceptMsg :=
  if compare_ballots msg.ballot st.max_ballot_promised ≠ -1 then
    ({ st with max_ballot_promised := msg.ballot,
               accepted_ballot := msg.ballot,
               accepted_val := some msg.val },
     some ⟨st.node_id, msg.ballot, msg.val⟩)
  else (st, none)

/-- Model of PaxosInstance.prepare: store the proposal, bump seq, build the
ballot from the current chain depth, clear the promises, drop leadership,
broadcast PREPARE and handle it locally.  Returns the new state and the ballot
of the broadcast. -/
def prepare (st : PaxosInstance) (blk : Chain.Block) (depth : Nat) :
    PaxosInstance × Ballot :=
  let ballot : Ballot := (st.seq_num + 1, st.node_id, (depth : Int))
  let st1 : PaxosInstance :=
    { st with my_proposal_val := some blk, seq_num := st.seq_num + 1,
              promises := [], is_leader := false }
  ((handle_prepare st1 ⟨st1.node_id, ballot⟩).1, ballot)

/-- One step of the value-selection loop in handle_promise: keep the running
triple of highest accepted ballot, value to propose and found flag, replacing
it when an entry carries a value under a strictly greater accepted ballot. -/
def chooseStep (acc : Ballot × Chain.BlockDict × Bool)
    (e : Int × (Ballot × Option Chain.BlockDict)) : Ballot × Chain.BlockDict × Bool :=
  match e.2.2 with
  | some v => if compare_ballots e.2.1 acc.1 = 1 then (e.2.1, v, true) else acc
  | none => acc

/-- The value-selection loop of handle_promise over the recorded promises, in
dict insertion order, seeded with the sentinel ballot and the own proposal. -/
def chooseValue (myDict : Chain.BlockDict) (ps : Promises) :
    Ballot × Chain.BlockDict × Bool :=
  ps.foldl chooseStep (noBallot, myDict, false)

/-- Model of PaxosInstance.handle_promise.  The outer none models the
AttributeError the source raises when the majority branch runs with
my_proposal_val None; otherwise the result is the new state and the ACCEPT
broadcast, when one is emitted.  The ballot the proposer matches against is
rebuilt from the current chain depth. -/
def handle_promise (st : PaxosInstance) (msg : PromiseMsg) (depth : Nat) :
    Option (PaxosInstance × Option AcceptMsg) :=
  let my_ballot : Ballot := (st.seq_num, st.node_id, (depth : Int))
  if compare_ballots msg.ballot my_ballot ≠ 0 then some (st, none)
  else
    let ps := dictSet st.promises msg.sender (msg.accepted_ballot, msg.accepted_val)
    let st1 : PaxosInstance := { st with promises := ps }
    if ps.length ≥ st1.num_nodes / 2 + 1 ∧ st1.is_leader = false then
      let st2 : PaxosInstance := { st1 with is_leader := true }
      match st2.my_proposal_val with
      | none => none
      | some blk =>
        let chosen := chooseValue blk.to_dict ps
        let acc : AcceptMsg := ⟨st2.node_id, my_ballot, chosen.2.1⟩
        let st3 := (handle_accept st2 acc).1
        some ({ st3 with accepts_received := [] }, some acc)
    else some (st1, none)

/-- A set of already decided block hashes; set.add keeps one copy. -/
def addDecided (l : List String) (h : String) : List String :=
  if l.contains h then l else l ++ [h]

end Paxos

namespace NodeM

/-- The per-node state the DECIDE path touches: the Paxos instance, the chain
store, and the last payload written to the state file. -/
structure Node where
  paxos : Paxos.PaxosInstance
  blockchain : Chain.Blockchain
  persisted : Chain.SaveData
deriving DecidableEq, Repr

/-- Model of PaxosInstance.handle_decide composed with the decide callback
Node.handle_paxos_decision.  The boolean is false when the KeyError raised
inside Blockchain.add_block escapes, in which case the acceptor reset at the
end of handle_decide does not run; a duplicate value or a missing value
returns the state unchanged. -/
def handle_decide (nd : Node) (val : Option Chain.BlockDict) : Node × Bool :=
  match val with
  | none => (nd, true)
  | some v =>
    if v.hash ≠ "" ∧ nd.paxos.decided_blocks.contains v.hash then (nd, true)
    else
      let nd1 : Node :=
        if v.hash ≠ "" then
          { nd with paxos :=
              { nd.paxos with decided_blocks := Paxos.addDecided nd.paxos.decided_blocks v.hash } }
        else nd
      let b := Chain.Block.from_dict v
      let r := nd1.blockchain.add_block b
      match r.2 with
      | none => ({ nd1 with blockchain := r.1 }, false)
      | some ok =>
        let nd2 : Node :=
          if ok then { nd1 with blockchain := r.1, persisted := r.1.saveData }
          else { nd1 with blockchain := r.1 }
        ({ nd2 with paxos :=
            { nd2.paxos with accepted_val := none, accepted_ballot := Paxos.noBallot } },
         true)

/-- Model of Node.validate_chain_structure: walk the chain checking the
prev_hash link against the running pointer and the PoW digest of each block. -/
def validate_chain_structure (ph : String) : List Chain.Block → Bool
  | [] => true
  | b :: rest =>
    if b.prev_hash ≠ ph then false
    else if ¬ Utils.verify_nonce b.powHash then false
    else validate_chain_structure b.hash rest

/-- The validation loop of Node.validate_and_update_chain: replay the candidate
against a running table, reading absent ids with dict get default 100, and
stop at a broken link, a failed PoW, or a sender balance below the amount.
Returns the replayed table on success. -/
def validateLoop (t : Chain.Table) (ph : String) : List Chain.Block → Option Chain.Table
  | [] => some t
  | b :: rest =>
    if b.prev_hash ≠ ph then none
    else if ¬ Utils.verify_nonce b.powHash then none
    else
      let sender_bal := Chain.tget t b.sender 100
      if sender_bal < b.amount then none
      else
        let t1 := Chain.tset t b.sender (sender_bal - b.amount)
        let t2 := Chain.tset t1 b.receiver (Chain.tget t1 b.receiver 100 + b.amount)
        validateLoop t2 b.hash rest

/-- Model of Node.validate_and_update_chain: seed the replay with the initial
balances, start the link pointer at the genesis hash, and on success install
the candidate chain and the replayed table.  The received balance table
argument is never read. -/
def validate_and_update_chain (bc : Chain.Blockchain) (new_chain : List Chain.Block)
    (new_balance_table : Chain.Table) : Option Chain.Blockchain :=
  match validateLoop Chain.initialBalances Chain.genesisHash new_chain with
  | none => none
  | some t => some { bc with chain := new_chain, balance_table := t }

/-- One collected BLOCKCHAIN_RESPONSE. -/
structure SyncResponse where
  sender : String
  chain_data : List Chain.BlockDict
  balance_table : Chain.Table
deriving DecidableEq, Repr

/-- The candidate-selection loop of Node.process_sync_responses: scan the
responses in arrival order, keeping the reconstructed chain of any response
strictly longer than the best length so far that passes the structural check. -/
def pickLoop : List SyncResponse → Option (List Chain.Block × Chain.Table) → Nat →
    Option (List Chain.Block × Chain.Table)
  | [], best, _ => best
  | r :: rest, best, bl =>
    if r.chain_data.length > bl then
      let rc := r.chain_data.map Chain.Block.from_dict
      if validate_chain_structure Chain.genesisHash rc then
        pickLoop rest (some (rc, r.balance_table)) r.chain_data.length
      else pickLoop rest best bl
    else pickLoop rest best bl

/-- Model of Node.process_sync_responses: pick the best candidate, then run the
full validation and install its result; keep the current chain when no
candidate survives or the full validation fails. -/
def process_sync_responses (bc : Chain.Blockchain) (responses : List SyncResponse) :
    Chain.Blockchain :=
  match pickLoop responses none bc.chain.length with
  | none => bc
  | some (c, t) =>
    match validate_and_update_chain bc c t with
    | none => bc
    | some bc2 => bc2

end NodeM

namespace NodeM

/-- Full validity of a candidate chain, as validate_and_update_chain checks it:
the replay from the initial balances and the genesis pointer succeeds. -/
def full_chain_valid (l : List Chain.Block) : Bool :=
  (validateLoop Chain.initialBalances Chain.genesisHash l).isSome

end NodeM

namespace Chain

/-- The fixed peer roster. -/
def roster : List String := ["1", "2", "3", "4", "5"]

end Chain

namespace SpecC7

/-- Replay of a candidate chain over a total balance assignment, following the
words of the specification for the sync validation: per block check the
prev_hash link, the PoW digest and that the sender balance covers the amount,
then debit the sender and credit the receiver. -/
def specC7Replay : (String → Int) → String → List Chain.Block → Option (String → Int)
  | bal, _, [] => some bal
  | bal, ph, b :: rest =>
    if b.prev_hash ≠ ph then none
    else if ¬ Utils.verify_nonce b.powHash then none
    else if bal b.sender < b.amount then none
    else
      let bal1 := fun k => if k = b.sender then bal b.sender - b.amount else bal k
      let bal2 := fun k => if k = b.receiver then bal1 b.receiver + b.amount else bal1 k
      specC7Replay bal2 b.hash rest

/-- The initial balance assignment as claim C7 words it: peers 1 to 5 hold 100
and every other peer-id implicitly holds 0. -/
def specC7Bal0 (k : String) : Int := if k ∈ Chain.roster then 100 else 0

/-- Acceptance of a candidate chain under the claim C7 wording. -/
def specC7Accepts (l : List Chain.Block) : Bool :=
  (specC7Replay specC7Bal0 Chain.genesisHash l).isSome

/-- Acceptance of a candidate chain under the amended wording: any peer-id that
was never written reads as 100, matching the dict get default the code uses,
so the initial assignment is the constant 100. -/
def amendedC7Accepts (l : List Chain.Block) : Bool :=
  (specC7Replay (fun _ => 100) Chain.genesisHash l).isSome

end SpecC7

/-- Counterexample block for claim C3: a PoW-valid transfer of 10 from peer 1 to
the roster-external id 6 on a fresh chain. -/
def cexBlock3 : Chain.Block := ⟨"1", "6", 10, "aaabAAAA", Chain.genesisHash⟩

/-- Witness block for claim C3: a PoW-valid transfer of 30 from peer 1 to peer 2
on a fresh chain. -/
def c3WBlock : Chain.Block := ⟨"1", "2", 30, "aaabAAAA", Chain.genesisHash⟩

/-- Counterexample block for claim C9: a PoW-valid transfer of 5 from peer 2 to
the roster-external id 7 on a fresh chain. -/
def cexBlock9 : Chain.Block := ⟨"2", "7", 5, "aaacAAAA", Chain.genesisHash⟩

/-- Witness block for claim C9. -/
def c9WBlock : Chain.Block := ⟨"1", "2", 30, "aaabAAAA", Chain.genesisHash⟩

/-- Counterexample chain for claim C7: a single PoW-valid block spending 50 from
the roster-external id 6. -/
def cexChain7 : List Chain.Block := [⟨"6", "2", 50, "aaabAAAA", Chain.genesisHash⟩]

/-- Witness chain for claim C7. -/
def c7WChain : List Chain.Block := [⟨"1", "2", 30, "aaabAAAA", Chain.genesisHash⟩]

/-- Witness block for claim C4: a committed block whose duplicate delivery is
exercised. -/
def c4Blk : Chain.Block := ⟨"1", "2", 30, "aaabAAAA", Chain.genesisHash⟩

/-- Witness chain store for claim C4, already holding c4Blk. -/
def c4Bc : Chain.Blockchain := ⟨"1", [c4Blk], Chain.initialBalances⟩

/-- A fresh Paxos instance for the claim C4 witness. -/
def c4Pax : Paxos.PaxosInstance :=
  ⟨1, 5, 0, none, [], [], false, Paxos.noBallot, Paxos.noBallot, none, []⟩

/-- Witness node state for claim C4. -/
def c4Node : NodeM.Node := ⟨c4Pax, Chain.Blockchain.init "1", ⟨[], []⟩⟩

/-- Witness proposal block for claim C2. -/
def c2Blk : Chain.Block := ⟨"1", "2", 30, "aaabAAAA", Chain.genesisHash⟩

/-- Witness proposer state for claim C2: two promises already recorded, one
short of the majority of five. -/
def c2P : Paxos.PaxosInstance :=
  ⟨1, 5, 1, some c2Blk, [(1, (Paxos.noBallot, none)), (2, (Paxos.noBallot, none))],
   [], false, (1, 1, 0), Paxos.noBallot, none, []⟩

/-- Witness promise message for claim C2: the third promise, carrying no
accepted value. -/
def c2Msg : Paxos.PromiseMsg := ⟨3, (1, 1, 0), Paxos.noBallot, none⟩

/-- Failing input for claim C6: a stored block record whose hash field does not
match the recomputation from its other fields. -/
def c6Dict : Chain.BlockDict := ⟨"1", "2", 5, "AAAAAAAA", Chain.genesisHash, "deadbeef"⟩

/-- The three chained negative-amount blocks of claim C10, each PoW-valid,
transferring minus 50 from peer 1 to peer 2. -/
def c10b1 : Chain.Block := ⟨"1", "2", -50, "aaabAAAA", Chain.genesisHash⟩

def c10b2 : Chain.Block := ⟨"1", "2", -50, "aaacAAAA", c10b1.hash⟩

def c10b3 : Chain.Block := ⟨"1", "2", -50, "aaaeAAAA", c10b2.hash⟩

/-- The chain store after committing the three negative-amount blocks. -/
def c10Final : Chain.Blockchain :=
  ((((Chain.Blockchain.init "1").add_block c10b1).1.add_block c10b2).1.add_block c10b3).1

/-- Counterexample block for claim C10 as stated: a PoW-valid amount-0 transfer
from peer 1 to the roster-external id 6 on a fresh chain. -/
def cexBlock10 : Chain.Block := ⟨"1", "6", 0, "aaaaAAAA", Chain.genesisHash⟩

/-- Witness block for the amount-0 commit of claim C10: a PoW-valid transfer of
0 from peer 1 to peer 2 on a fresh chain. -/
def c10z : Chain.Block := ⟨"1", "2", 0, "aaadAAAA", Chain.genesisHash⟩

namespace Paxos

theorem cmp_one_iff (b1 b2 : Ballot) :
    compare_ballots b1 b2 = 1 ↔ lexLt (key b2) (key b1) := by
  rcases b1 with ⟨s1, i1, d1⟩
  rcases b2 with ⟨s2, i2, d2⟩
  simp only [compare_ballots, seqOf, idOf, depthOf, key, lexLt]
  split_ifs <;> constructor <;> intro h0 <;> first | omega | exact h0.elim

theorem cmp_negone_iff (b1 b2 : Ballot) :
    compare_ballots b1 b2 = -1 ↔ lexLt (key b1) (key b2) := by
  rcases b1 with ⟨s1, i1, d1⟩
  rcases b2 with ⟨s2, i2, d2⟩
  simp only [compare_ballots, seqOf, idOf, depthOf, key, lexLt]
  split_ifs <;> constructor <;> intro h0 <;> first | omega | exact h0.elim

theorem cmp_zero_iff (b1 b2 : Ballot) :
    compare_ballots b1 b2 = 0 ↔ b1 = b2 := by
  rcases b1 with ⟨s1, i1, d1⟩
  rcases b2 with ⟨s2, i2, d2⟩
  simp only [compare_ballots, seqOf, idOf, depthOf, Prod.mk.injEq]
  split_ifs <;> constructor <;> intro h0 <;> first | omega | exact h0.elim

theorem lexLt_irrefl (x : Int × Int × Int) : ¬ lexLt x x := by
  rcases x with ⟨a, b, c⟩
  simp only [lexLt]
  omega

theorem lexLt_trans {x y z : Int × Int × Int} (h1 : lexLt x y) (h2 : lexLt y z) :
    lexLt x z := by
  rcases x with ⟨a1, b1, c1⟩
  rcases y with ⟨a2, b2, c2⟩
  rcases z with ⟨a3, b3, c3⟩
  simp only [lexLt] at h1 h2 ⊢
  omega

theorem lexLt_total (x y : Int × Int × Int) : lexLt x y ∨ x = y ∨ lexLt y x := by
  rcases x with ⟨a1, b1, c1⟩
  rcases y with ⟨a2, b2, c2⟩
  simp only [lexLt, Prod.mk.injEq]
  omega

end Paxos

namespace Paxos

theorem not_lexLt_of_le {x y : Int × Int × Int} (h : x = y ∨ lexLt x y) :
    ¬ lexLt y x := by
  rcases h with rfl | h
  · exact lexLt_irrefl x
  · intro h2
    exact lexLt_irrefl x (lexLt_trans h h2)

theorem not_lexLt_of_le_of_not {b0 r ab : Int × Int × Int}
    (hb : b0 = r ∨ lexLt b0 r) (hnc : ¬ lexLt b0 ab) : ¬ lexLt r ab := by
  rcases hb with rfl | hb
  · exact hnc
  · intro h2
    exact hnc (lexLt_trans hb h2)

theorem choose_all_none (l : Promises) :
    ∀ acc, (∀ e ∈ l, e.2.2 = none) → l.foldl chooseStep acc = acc := by
  induction l with
  | nil => intro acc _; rfl
  | cons e rest ih =>
    intro acc h
    have he : e.2.2 = none := h e (List.mem_cons_self e rest)
    have hstep : chooseStep acc e = acc := by
      simp [chooseStep, he]
    rw [List.foldl_cons, hstep]
    exact ih acc (fun x hx => h x (List.mem_cons_of_mem e hx))

theorem choose_go (l : Promises) :
    ∀ (b0 : Ballot) (v0 : Chain.BlockDict) (f0 : Bool) (r : Ballot × Chain.BlockDict × Bool),
      r = l.foldl chooseStep (b0, v0, f0) →
      (r = (b0, v0, f0) ∧ ∀ e ∈ l, e.2.2.isSome = true → ¬ lexLt (key b0) (key e.2.1))
      ∨ (∃ f ∈ l, f.2.2 = some r.2.1 ∧ r.1 = f.2.1 ∧
          (key b0 = key r.1 ∨ lexLt (key b0) (key r.1)) ∧
          (∀ g ∈ l, g.2.2.isSome = true → ¬ lexLt (key r.1) (key g.2.1))) := by
  induction l with
  | nil =>
    intro b0 v0 f0 r hr
    left
    exact ⟨hr, by intro e he; exact absurd he (List.not_mem_nil e)⟩
  | cons e rest ih =>
    intro b0 v0 f0 r hr
    rw [List.foldl_cons] at hr
    rcases hav : e.2.2 with _ | v
    · have hstep : chooseStep (b0, v0, f0) e = (b0, v0, f0) := by
        simp [chooseStep, hav]
      rw [hstep] at hr
      rcases ih b0 v0 f0 r hr with ⟨h1, h2⟩ | ⟨f, hf, h1, h2, h3, h4⟩
      · left
        refine ⟨h1, ?_⟩
        intro x hx hs
        rcases List.mem_cons.mp hx with rfl | hx2
        · rw [hav] at hs; exact absurd hs (by simp)
        · exact h2 x hx2 hs
      · right
        refine ⟨f, List.mem_cons_of_mem e hf, h1, h2, h3, ?_⟩
        intro g hg hs
        rcases List.mem_cons.mp hg with rfl | hg2
        · rw [hav] at hs; exact absurd hs (by simp)
        · exact h4 g hg2 hs
    · by_cases hc : compare_ballots e.2.1 b0 = 1
      · have hstep : chooseStep (b0, v0, f0) e = (e.2.1, v, true) := by
          simp [chooseStep, hav, hc]
        rw [hstep] at hr
        have hlt : lexLt (key b0) (key e.2.1) := (cmp_one_iff e.2.1 b0).mp hc
        rcases ih e.2.1 v true r hr with ⟨h1, h2⟩ | ⟨f, hf, h1, h2, h3, h4⟩
        · right
          refine ⟨e, List.mem_cons_self e rest, ?_, ?_, ?_, ?_⟩
          · rw [hav, h1]
          · rw [h1]
          · rw [h1]; exact Or.inr hlt
          · intro g hg hs
            rcases List.mem_cons.mp hg with rfl | hg2
            · rw [h1]; exact lexLt_irrefl _
            · rw [h1]; exact h2 g hg2 hs
        · right
          refine ⟨f, List.mem_cons_of_mem e hf, h1, h2, ?_, ?_⟩
          · rcases h3 with h3 | h3
            · exact Or.inr (h3 ▸ hlt)
            · exact Or.inr (lexLt_trans hlt h3)
          · intro g hg hs
            rcases List.mem_cons.mp hg with rfl | hg2
            · exact not_lexLt_of_le h3
            · exact h4 g hg2 hs
      · have hstep : chooseStep (b0, v0, f0) e = (b0, v0, f0) := by
          simp [chooseStep, hav, hc]
        rw [hstep] at hr
        have hnlt : ¬ lexLt (key b0) (key e.2.1) := fun h => hc ((cmp_one_iff e.2.1 b0).mpr h)
        rcases ih b0 v0 f0 r hr with ⟨h1, h2⟩ | ⟨f, hf, h1, h2, h3, h4⟩
        · left
          refine ⟨h1, ?_⟩
          intro x hx hs
          rcases List.mem_cons.mp hx with rfl | hx2
          · exact hnlt
          · exact h2 x hx2 hs
        · right
          refine ⟨f, List.mem_cons_of_mem e hf, h1, h2, h3, ?_⟩
          intro g hg hs
          rcases List.mem_cons.mp hg with rfl | hg2
          · exact not_lexLt_of_le_of_not h3 hnlt
          · exact h4 g hg2 hs

theorem chooseValue_spec (my : Chain.BlockDict) (ps : Promises)
    (hreal : ∀ e ∈ ps, e.2.2.isSome = true → compare_ballots e.2.1 noBallot = 1) :
    ((∀ e ∈ ps, e.2.2 = none) → (chooseValue my ps).2.1 = my) ∧
    ((∃ e ∈ ps, e.2.2.isSome = true) →
      ∃ f ∈ ps, f.2.2 = some (chooseValue my ps).2.1 ∧
        ∀ g ∈ ps, g.2.2.isSome = true → compare_ballots g.2.1 f.2.1 ≠ 1) := by
  constructor
  · intro hall
    unfold chooseValue
    rw [choose_all_none ps _ hall]
  · rintro ⟨e, he, hs⟩
    rcases choose_go ps noBallot my false (chooseValue my ps) rfl with ⟨_, h2⟩ | ⟨f, hf, h1, h2, _, h4⟩
    · exact absurd ((cmp_one_iff e.2.1 noBallot).mp (hreal e he hs)) (h2 e he hs)
    · refine ⟨f, hf, h1, ?_⟩
      intro g hg hgs hcmp
      exact (h2 ▸ h4 g hg hgs) ((cmp_one_iff g.2.1 f.2.1).mp hcmp)

end Paxos

namespace Paxos

/-- C5: compare_ballots realises the total order on ballots, lexicographic with
slot depth most significant, then seq, then proposer id, returning 1, -1 or 0
exactly for greater, less and equal; and the sentinel ballot of minus ones
compares strictly less than every ballot whose depth is nonnegative, in
particular every ballot that prepare builds from a chain depth. -/
theorem c5_compare_ballots_lex_order (b1 b2 : Ballot) (s i d : Int) (hd : 0 ≤ d) :
    (compare_ballots b1 b2 = 1 ↔ lexLt (key b2) (key b1)) ∧
    (compare_ballots b1 b2 = -1 ↔ lexLt (key b1) (key b2)) ∧
    (compare_ballots b1 b2 = 0 ↔ b1 = b2) ∧
    compare_ballots noBallot (s, i, d) = -1 ∧
    (∀ (st : PaxosInstance) (blk : Chain.Block) (depth : Nat),
      compare_ballots noBallot (prepare st blk depth).2 = -1) := by
  refine ⟨cmp_one_iff b1 b2, cmp_negone_iff b1 b2, cmp_zero_iff b1 b2, ?_, ?_⟩
  · simp only [compare_ballots, noBallot, seqOf, idOf, depthOf]
    split_ifs <;> omega
  · intro st blk depth
    simp only [prepare, compare_ballots, noBallot, seqOf, idOf, depthOf]
    split_ifs <;> omega

theorem c5_witness :
    (0 : Int) ≤ 0 ∧ compare_ballots noBallot (1, 1, 0) = -1 :=
  ⟨le_refl 0,
   (c5_compare_ballots_lex_order (0, 0, 0) (0, 0, 0) 1 1 0 (le_refl 0)).2.2.2.1⟩

/-- C2: when handle_promise records the promise that first reaches a majority
while the proposer is not yet leader, an ACCEPT is emitted whose value is the
own pending proposal when every recorded promise carries a null accepted
value, and otherwise is the accepted value of a recorded promise whose
accepted ballot no other recorded non-null promise exceeds; the recorded
non-null accepted ballots are assumed greater than the sentinel, as every
acceptor that has accepted a value reports the real ballot it accepted
under. -/
theorem c2_handle_promise_value_choice (st : PaxosInstance) (msg : PromiseMsg)
    (depth : Nat) (blk : Chain.Block)
    (hval : st.my_proposal_val = some blk)
    (hlead : st.is_leader = false)
    (hballot : compare_ballots msg.ballot (st.seq_num, st.node_id, (depth : Int)) = 0)
    (hmaj : (dictSet st.promises msg.sender (msg.accepted_ballot, msg.accepted_val)).length ≥
      st.num_nodes / 2 + 1)
    (hreal : ∀ e ∈ dictSet st.promises msg.sender (msg.accepted_ballot, msg.accepted_val),
      e.2.2.isSome = true → compare_ballots e.2.1 noBallot = 1) :
    ∃ st2 acc, handle_promise st msg depth = some (st2, some acc) ∧
      ((∀ e ∈ dictSet st.promises msg.sender (msg.accepted_ballot, msg.accepted_val),
          e.2.2 = none) → acc.val = blk.to_dict) ∧
      ((∃ e ∈ dictSet st.promises msg.sender (msg.accepted_ballot, msg.accepted_val),
          e.2.2.isSome = true) →
        ∃ f ∈ dictSet st.promises msg.sender (msg.accepted_ballot, msg.accepted_val),
          f.2.2 = some acc.val ∧
          ∀ g ∈ dictSet st.promises msg.sender (msg.accepted_ballot, msg.accepted_val),
            g.2.2.isSome = true → compare_ballots g.2.1 f.2.1 ≠ 1) := by
  have hspec := chooseValue_spec blk.to_dict
    (dictSet st.promises msg.sender (msg.accepted_ballot, msg.accepted_val)) hreal
  simp only [handle_promise]
  rw [if_neg (by rw [hballot]; exact fun h => h rfl)]
  rw [if_pos ⟨hmaj, hlead⟩]
  rw [hval]
  refine ⟨_, _, rfl, ?_, ?_⟩
  · exact hspec.1
  · exact hspec.2

end Paxos

namespace Chain

theorem tadd_isSome {t : Table} {k : String} (h : hasKey t k = true) (v : Int) :
    (tadd t k v).isSome = true := by
  induction t with
  | nil => simp [hasKey] at h
  | cons p rest ih =>
    by_cases hp : p.1 = k
    · simp [tadd, hp]
    · simp only [hasKey, Bool.or_eq_true, decide_eq_true_eq] at h
      rcases h with h | h
      · exact absurd h hp
      · obtain ⟨t0, ht0⟩ := Option.isSome_iff_exists.mp (ih h)
        simp [tadd, hp, ht0]

theorem hasKey_tadd {t t' : Table} {k : String} {v : Int}
    (h : tadd t k v = some t') (k' : String) : hasKey t' k' = hasKey t k' := by
  induction t generalizing t' with
  | nil => simp [tadd] at h
  | cons p rest ih =>
    by_cases hp : p.1 = k
    · simp only [tadd, if_pos hp, Option.some.injEq] at h
      subst h
      simp [hasKey, hp]
    · simp only [tadd, if_neg hp, Option.map_eq_some'] at h
      rcases h with ⟨t0, ht0, rfl⟩
      simp [hasKey, ih ht0]

theorem tget_tadd_same {t t' : Table} {k : String} {v : Int}
    (h : tadd t k v = some t') (d : Int) : tget t' k d = tget t k d + v := by
  induction t generalizing t' with
  | nil => simp [tadd] at h
  | cons p rest ih =>
    by_cases hp : p.1 = k
    · simp only [tadd, if_pos hp, Option.some.injEq] at h
      subst h
      simp [tget, hp]
    · simp only [tadd, if_neg hp, Option.map_eq_some'] at h
      rcases h with ⟨t0, ht0, rfl⟩
      simp [tget, hp, ih ht0]

theorem tget_tadd_other {t t' : Table} {k k' : String} {v : Int}
    (h : tadd t k v = some t') (hk : ¬ k' = k) (d : Int) :
    tget t' k' d = tget t k' d := by
  induction t generalizing t' with
  | nil => simp [tadd] at h
  | cons p rest ih =>
    by_cases hp : p.1 = k
    · simp only [tadd, if_pos hp, Option.some.injEq] at h
      subst h
      simp only [tget]
      rw [if_neg (fun hh => hk hh.symm), if_neg (fun hh => hk (hh.symm.trans hp))]
    · simp only [tadd, if_neg hp, Option.map_eq_some'] at h
      rcases h with ⟨t0, ht0, rfl⟩
      simp only [tget]
      by_cases hpk : p.1 = k'
      · rw [if_pos hpk, if_pos hpk]
      · rw [if_neg hpk, if_neg hpk]
        exact ih ht0

theorem sum_tadd {t t' : Table} {k : String} {v : Int}
    (h : tadd t k v = some t') : sumValues t' = sumValues t + v := by
  induction t generalizing t' with
  | nil => simp [tadd] at h
  | cons p rest ih =>
    by_cases hp : p.1 = k
    · simp only [tadd, if_pos hp, Option.some.injEq] at h
      subst h
      simp only [sumValues, List.map_cons, List.sum_cons]
      ring
    · simp only [tadd, if_neg hp, Option.map_eq_some'] at h
      rcases h with ⟨t0, ht0, rfl⟩
      simp only [sumValues, List.map_cons, List.sum_cons] at ih ⊢
      rw [ih ht0]
      ring

theorem tget_tset (t : Table) (k k' : String) (v d : Int) :
    tget (tset t k v) k' d = if k' = k then v else tget t k' d := by
  induction t with
  | nil =>
    by_cases hk : k' = k
    · simp [tset, tget, hk]
    · rw [if_neg hk]
      simp only [tset, tget]
      rw [if_neg (fun hh => hk hh.symm)]
  | cons p rest ih =>
    by_cases hp : p.1 = k
    · by_cases hk : k' = k
      · simp only [tset, if_pos hp, tget, if_pos hk]
        rw [if_pos hk.symm]
      · simp only [tset, if_pos hp, tget]
        rw [if_neg (fun hh => hk hh.symm), if_neg hk,
            if_neg (fun hh => hk (hh.symm.trans hp))]
    · simp only [tset, if_neg hp, tget]
      by_cases hpk : p.1 = k'
      · rw [if_pos hpk, if_neg (fun hh => hp (hpk.trans hh)), if_pos hpk]
      · rw [if_neg hpk, ih]
        by_cases hk : k' = k
        · rw [if_pos hk, if_pos hk]
        · rw [if_neg hk, if_neg hk, if_neg hpk]

theorem hasKey_tset_existing {t : Table} {k : String} (h : hasKey t k = true)
    (v : Int) (k' : String) : hasKey (tset t k v) k' = hasKey t k' := by
  induction t with
  | nil => simp [hasKey] at h
  | cons p rest ih =>
    by_cases hp : p.1 = k
    · simp [tset, hp, hasKey]
    · simp only [hasKey, Bool.or_eq_true, decide_eq_true_eq] at h
      rcases h with h | h
      · exact absurd h hp
      · simp [tset, hp, hasKey, ih h]

theorem sum_tset_existing {t : Table} {k : String} (h : hasKey t k = true) (v : Int) :
    sumValues (tset t k v) = sumValues t - tget t k 0 + v := by
  induction t with
  | nil => simp [hasKey] at h
  | cons p rest ih =>
    by_cases hp : p.1 = k
    · have h1 : tset (p :: rest) k v = (k, v) :: rest := by simp [tset, hp]
      have h2 : tget (p :: rest) k 0 = p.2 := by simp [tget, hp]
      rw [h1, h2]
      simp only [sumValues, List.map_cons, List.sum_cons]
      ring
    · simp only [hasKey, Bool.or_eq_true, decide_eq_true_eq] at h
      rcases h with h | h
      · exact absurd h hp
      · have h1 : tset (p :: rest) k v = p :: tset rest k v := by simp [tset, hp]
        have h2 : tget (p :: rest) k 0 = tget rest k 0 := by simp [tget, hp]
        rw [h1, h2]
        simp only [sumValues, List.map_cons, List.sum_cons] at ih ⊢
        rw [ih h]
        ring

theorem tget_default_eq {t : Table} {k : String} (h : hasKey t k = true) (d1 d2 : Int) :
    tget t k d1 = tget t k d2 := by
  induction t with
  | nil => simp [hasKey] at h
  | cons p rest ih =>
    by_cases hp : p.1 = k
    · simp [tget, hp]
    · simp only [hasKey, Bool.or_eq_true, decide_eq_true_eq] at h
      rcases h with h | h
      · exact absurd h hp
      · simp [tget, hp, ih h]

end Chain

/-- C3 (amended): for a block whose hash is not already in the chain and whose
sender and receiver are both keys of the balance table, add_block returns
False leaving the state unchanged exactly when the prev_hash mismatches the
tip, the PoW digest fails, or the sender balance is below the amount; and
otherwise it appends the block, debits the sender, credits the receiver and
returns True. -/
theorem c3_add_block_validation (bc : Chain.Blockchain) (b : Chain.Block)
    (hdup : bc.chain.any (fun e => e.hash = b.hash) = false)
    (hs : Chain.hasKey bc.balance_table b.sender = true)
    (hr : Chain.hasKey bc.balance_table b.receiver = true) :
    (bc.add_block b = (bc, some false) ↔
      (b.prev_hash ≠ bc.tipHash ∨ Utils.verify_nonce b.powHash = false ∨
        bc.get_balance b.sender < b.amount)) ∧
    ((b.prev_hash = bc.tipHash ∧ Utils.verify_nonce b.powHash = true ∧
        ¬ bc.get_balance b.sender < b.amount) →
      ∃ t1 t2, Chain.tadd bc.balance_table b.sender (-b.amount) = some t1 ∧
        Chain.tadd t1 b.receiver b.amount = some t2 ∧
        bc.add_block b =
          ({ bc with chain := bc.chain ++ [b], balance_table := t2 }, some true)) := by
  simp only [Chain.Blockchain.add_block]
  rw [if_neg (by simp [hdup])]
  by_cases h1 : b.prev_hash = bc.tipHash
  · rw [if_neg (fun hh => hh h1)]
    by_cases h2 : Utils.verify_nonce b.powHash = true
    · rw [if_neg (fun hh => hh h2)]
      by_cases h3 : bc.get_balance b.sender < b.amount
      · rw [if_pos h3]
        refine ⟨⟨fun _ => Or.inr (Or.inr h3), fun _ => rfl⟩, fun hcond => absurd h3 hcond.2.2⟩
      · rw [if_neg h3]
        obtain ⟨t1, ht1⟩ :=
          Option.isSome_iff_exists.mp (Chain.tadd_isSome hs (-b.amount))
        have hr1 : Chain.hasKey t1 b.receiver = true := by
          rw [Chain.hasKey_tadd ht1]
          exact hr
        obtain ⟨t2, ht2⟩ :=
          Option.isSome_iff_exists.mp (Chain.tadd_isSome hr1 b.amount)
        rw [show ({ bc with chain := bc.chain ++ [b] } : Chain.Blockchain).balance_table =
              bc.balance_table from rfl, ht1]
        dsimp only
        rw [ht2]
        constructor
        · constructor
          · intro hh
            exact absurd (congrArg Prod.snd hh) (by simp)
          · intro hor
            rcases hor with hh | hh | hh
            · exact absurd h1 hh
            · exact absurd h2 (by simp [hh])
            · exact absurd hh h3
        · intro _
          exact ⟨t1, t2, rfl, ht2, rfl⟩
    · have h2f : Utils.verify_nonce b.powHash = false := by
        cases hv : Utils.verify_nonce b.powHash
        · rfl
        · exact absurd hv h2
      rw [if_pos h2]
      refine ⟨⟨fun _ => Or.inr (Or.inl h2f), fun _ => rfl⟩,
        fun hcond => absurd hcond.2.1 h2⟩
  · rw [if_pos h1]
    refine ⟨⟨fun _ => Or.inl h1, fun _ => rfl⟩, fun hcond => absurd hcond.1 h1⟩

/-- Counterexample to C3 as stated: on a fresh chain, a PoW-valid transfer of 10
from peer 1 to the roster-external id 6 satisfies none of the three failure
conditions, yet add_block neither returns False with the state unchanged nor
completes the commit: the KeyError on the missing receiver key escapes (the
none outcome) after the block was appended and the sender debited. -/
theorem c3_counterexample :
    (Chain.Blockchain.init "1").chain.any (fun e => e.hash = cexBlock3.hash) = false ∧
    cexBlock3.prev_hash = (Chain.Blockchain.init "1").tipHash ∧
    Utils.verify_nonce cexBlock3.powHash = true ∧
    ¬ (Chain.Blockchain.init "1").get_balance cexBlock3.sender < cexBlock3.amount ∧
    ((Chain.Blockchain.init "1").add_block cexBlock3).2 = none ∧
    ((Chain.Blockchain.init "1").add_block cexBlock3).1 ≠ Chain.Blockchain.init "1" := by
  decide

theorem c3_witness :
    ((Chain.Blockchain.init "1").chain.any (fun e => e.hash = c3WBlock.hash) = false) ∧
    (Chain.hasKey (Chain.Blockchain.init "1").balance_table c3WBlock.sender = true) ∧
    (Chain.hasKey (Chain.Blockchain.init "1").balance_table c3WBlock.receiver = true) ∧
    (((Chain.Blockchain.init "1").add_block c3WBlock = (Chain.Blockchain.init "1", some false) ↔
      (c3WBlock.prev_hash ≠ (Chain.Blockchain.init "1").tipHash ∨
        Utils.verify_nonce c3WBlock.powHash = false ∨
        (Chain.Blockchain.init "1").get_balance c3WBlock.sender < c3WBlock.amount)) ∧
    ((c3WBlock.prev_hash = (Chain.Blockchain.init "1").tipHash ∧
        Utils.verify_nonce c3WBlock.powHash = true ∧
        ¬ (Chain.Blockchain.init "1").get_balance c3WBlock.sender < c3WBlock.amount) →
      ∃ t1 t2, Chain.tadd (Chain.Blockchain.init "1").balance_table c3WBlock.sender
          (-c3WBlock.amount) = some t1 ∧
        Chain.tadd t1 c3WBlock.receiver c3WBlock.amount = some t2 ∧
        (Chain.Blockchain.init "1").add_block c3WBlock =
          ({ Chain.Blockchain.init "1" with
              chain := (Chain.Blockchain.init "1").chain ++ [c3WBlock],
              balance_table := t2 }, some true))) :=
  ⟨by decide, by decide, by decide,
   c3_add_block_validation (Chain.Blockchain.init "1") c3WBlock (by decide) (by decide) (by decide)⟩

theorem mem_addDecided (l : List String) (h : String) : h ∈ Paxos.addDecided l h := by
  unfold Paxos.addDecided
  by_cases hc : l.contains h = true
  · rw [if_pos hc]
    simpa using hc
  · rw [if_neg hc]
    simp

theorem handle_decide_records (nd : NodeM.Node) (v : Chain.BlockDict) (hv : v.hash ≠ "") :
    ((NodeM.handle_decide nd (some v)).1).paxos.decided_blocks.contains v.hash = true := by
  simp only [NodeM.handle_decide]
  by_cases hdup : nd.paxos.decided_blocks.contains v.hash = true
  · rw [if_pos ⟨hv, hdup⟩]
    exact hdup
  · rw [if_neg (fun hh => hdup hh.2)]
    rw [if_pos hv]
    rcases hE : ((({ nd with paxos :=
        { nd.paxos with decided_blocks :=
            Paxos.addDecided nd.paxos.decided_blocks v.hash } } : NodeM.Node)).blockchain.add_block
        (Chain.Block.from_dict v)).2 with _ | ok
    · simp [hE, mem_addDecided]
    · cases ok
      · simp [hE, mem_addDecided]
      · simp [hE, mem_addDecided]

/-- C4: committing a block whose hash already occurs in the chain returns True
and leaves the chain and the balance table unchanged; and delivering the same
DECIDE value twice leaves the complete node state after the first delivery,
including chain, balances, decided set and persisted payload, untouched.  The
value carries the nonempty hash field every serialized block has. -/
theorem c4_duplicate_decide_idempotent (bc : Chain.Blockchain) (b : Chain.Block)
    (hdup : bc.chain.any (fun e => e.hash = b.hash) = true)
    (nd : NodeM.Node) (v : Chain.BlockDict) (hv : v.hash ≠ "") :
    bc.add_block b = (bc, some true) ∧
    (NodeM.handle_decide (NodeM.handle_decide nd (some v)).1 (some v)).1 =
      (NodeM.handle_decide nd (some v)).1 := by
  constructor
  · simp only [Chain.Blockchain.add_block]
    rw [if_pos hdup]
  · have hc := handle_decide_records nd v hv
    generalize hnd : (NodeM.handle_decide nd (some v)).1 = nd2 at hc ⊢
    simp only [NodeM.handle_decide]
    rw [if_pos ⟨hv, hc⟩]

theorem c4_witness :
    (c4Bc.chain.any (fun e => e.hash = c4Blk.hash) = true) ∧
    (c4Blk.to_dict.hash ≠ "") ∧
    (c4Bc.add_block c4Blk = (c4Bc, some true) ∧
      (NodeM.handle_decide (NodeM.handle_decide c4Node (some c4Blk.to_dict)).1
          (some c4Blk.to_dict)).1 =
        (NodeM.handle_decide c4Node (some c4Blk.to_dict)).1) :=
  ⟨by decide, by decide,
   c4_duplicate_decide_idempotent c4Bc c4Blk (by decide) c4Node c4Blk.to_dict (by decide)⟩

/-- C6 evaluated at the failing input: from_dict returns the reconstructed block
normally although the recomputed hash differs from the stored hash field, and
load_from_disk installs that block; no rejection or corruption report exists
on this path, contrary to the claim and to the stated intent. -/
theorem c6_from_dict_accepts_mismatch :
    Chain.Block.from_dict c6Dict = ⟨"1", "2", 5, "AAAAAAAA", Chain.genesisHash⟩ ∧
    (Chain.Block.from_dict c6Dict).hash ≠ c6Dict.hash ∧
    (Chain.Blockchain.load_from_disk (Chain.Blockchain.init "1")
        ⟨[c6Dict], Chain.initialBalances⟩).chain = [Chain.Block.from_dict c6Dict] :=
  ⟨rfl, by decide, rfl⟩

theorem vloop_keys_sum (l : List Chain.Block) :
    ∀ (t t' : Chain.Table) (ph : String),
      NodeM.validateLoop t ph l = some t' →
      (∀ b ∈ l, Chain.hasKey t b.sender = true ∧ Chain.hasKey t b.receiver = true) →
      Chain.sumValues t' = Chain.sumValues t ∧
        ∀ k, Chain.hasKey t' k = Chain.hasKey t k := by
  induction l with
  | nil =>
    intro t t' ph h _
    simp only [NodeM.validateLoop, Option.some.injEq] at h
    subst h
    exact ⟨rfl, fun _ => rfl⟩
  | cons b rest ih =>
    intro t t' ph h hk
    obtain ⟨hbs, hbr⟩ := hk b (List.mem_cons_self b rest)
    simp only [NodeM.validateLoop] at h
    split_ifs at h with h1 h2 h3 <;> try cases h
    · have hk1 : ∀ k, Chain.hasKey
          (Chain.tset t b.sender (Chain.tget t b.sender 100 - b.amount)) k =
          Chain.hasKey t k :=
        Chain.hasKey_tset_existing hbs _
      have hbr1 : Chain.hasKey
          (Chain.tset t b.sender (Chain.tget t b.sender 100 - b.amount)) b.receiver = true := by
        rw [hk1]; exact hbr
      have hk2 : ∀ k, Chain.hasKey
          (Chain.tset (Chain.tset t b.sender (Chain.tget t b.sender 100 - b.amount)) b.receiver
            (Chain.tget (Chain.tset t b.sender (Chain.tget t b.sender 100 - b.amount))
              b.receiver 100 + b.amount)) k = Chain.hasKey t k := by
        intro k
        rw [Chain.hasKey_tset_existing hbr1, hk1]
      have hsum1 : Chain.sumValues
          (Chain.tset t b.sender (Chain.tget t b.sender 100 - b.amount)) =
          Chain.sumValues t - b.amount := by
        rw [Chain.sum_tset_existing hbs, Chain.tget_default_eq hbs 100 0]
        ring
      have hsum2 : Chain.sumValues
          (Chain.tset (Chain.tset t b.sender (Chain.tget t b.sender 100 - b.amount)) b.receiver
            (Chain.tget (Chain.tset t b.sender (Chain.tget t b.sender 100 - b.amount))
              b.receiver 100 + b.amount)) = Chain.sumValues t := by
        rw [Chain.sum_tset_existing hbr1, Chain.tget_default_eq hbr1 100 0, hsum1]
        ring
      obtain ⟨hsr, hkr⟩ := ih _ t' b.hash h (by
        intro b2 hb2
        rw [hk2, hk2]
        exact hk b2 (List.mem_cons_of_mem b hb2))
      refine ⟨by rw [hsr, hsum2], fun k => by rw [hkr k, hk2]⟩

theorem roster_hasKey_initial : ∀ k ∈ Chain.roster, Chain.hasKey Chain.initialBalances k = true := by
  decide

/-- C9 (amended): the initial balance table sums to 500; add_block preserves the
sum 500 in every branch for every block whose sender and receiver are keys of
the balance table; and chain adoption during sync installs a table summing to
500 whenever every block of the adopted chain has its sender and receiver in
the roster. -/
theorem c9_conservation (bc : Chain.Blockchain) (b : Chain.Block)
    (hsum : Chain.sumValues bc.balance_table = 500)
    (hs : Chain.hasKey bc.balance_table b.sender = true)
    (hr : Chain.hasKey bc.balance_table b.receiver = true)
    (bc2 bc3 : Chain.Blockchain) (chain : List Chain.Block) (t : Chain.Table)
    (hroster : ∀ blk ∈ chain, blk.sender ∈ Chain.roster ∧ blk.receiver ∈ Chain.roster)
    (hv : NodeM.validate_and_update_chain bc2 chain t = some bc3) :
    Chain.sumValues Chain.initialBalances = 500 ∧
    Chain.sumValues (bc.add_block b).1.balance_table = 500 ∧
    Chain.sumValues bc3.balance_table = 500 := by
  refine ⟨by decide, ?_, ?_⟩
  · simp only [Chain.Blockchain.add_block]
    split_ifs with h0 h1 h2 h3 <;> try exact hsum
    · obtain ⟨t1, ht1⟩ :=
        Option.isSome_iff_exists.mp (Chain.tadd_isSome hs (-b.amount))
      have hr1 : Chain.hasKey t1 b.receiver = true := by
        rw [Chain.hasKey_tadd ht1]
        exact hr
      obtain ⟨t2, ht2⟩ :=
        Option.isSome_iff_exists.mp (Chain.tadd_isSome hr1 b.amount)
      rw [show ({ bc with chain := bc.chain ++ [b] } : Chain.Blockchain).balance_table =
            bc.balance_table from rfl, ht1]
      dsimp only
      rw [ht2]
      dsimp only
      rw [Chain.sum_tadd ht2, Chain.sum_tadd ht1, hsum]
      ring
  · simp only [NodeM.validate_and_update_chain] at hv
    rcases hL : NodeM.validateLoop Chain.initialBalances Chain.genesisHash chain with _ | t4
    · rw [hL] at hv
      cases hv
    · rw [hL] at hv
      simp only [Option.some.injEq] at hv
      subst hv
      have := vloop_keys_sum chain Chain.initialBalances t4 Chain.genesisHash hL (by
        intro b2 hb2
        obtain ⟨hbs, hbr⟩ := hroster b2 hb2
        exact ⟨roster_hasKey_initial _ hbs, roster_hasKey_initial _ hbr⟩)
      rw [show ({ bc2 with chain := chain, balance_table := t4 } : Chain.Blockchain).balance_table
            = t4 from rfl, this.1]
      decide

theorem c9_witness :
    (Chain.sumValues (Chain.Blockchain.init "1").balance_table = 500) ∧
    (Chain.hasKey (Chain.Blockchain.init "1").balance_table c9WBlock.sender = true) ∧
    (Chain.hasKey (Chain.Blockchain.init "1").balance_table c9WBlock.receiver = true) ∧
    (NodeM.validate_and_update_chain (Chain.Blockchain.init "1") [] [] =
      some (Chain.Blockchain.init "1")) ∧
    (Chain.sumValues Chain.initialBalances = 500 ∧
      Chain.sumValues ((Chain.Blockchain.init "1").add_block c9WBlock).1.balance_table = 500 ∧
      Chain.sumValues (Chain.Blockchain.init "1").balance_table = 500) :=
  ⟨by decide, by decide, by decide, by decide,
   c9_conservation (Chain.Blockchain.init "1") c9WBlock (by decide) (by decide) (by decide)
     (Chain.Blockchain.init "1") (Chain.Blockchain.init "1") [] []
     (by intro blk hblk; exact absurd hblk (List.not_mem_nil blk)) (by decide)⟩

/-- Counterexample to C9 as stated: committing the reachable block that sends 5
from peer 2 to the roster-external id 7 (created by the command moneyTransfer
7 5 at peer 2 and decided by Paxos) leaves the balance table summing to 495:
the sender is debited, then the credit raises KeyError on the missing key. -/
theorem c9_counterexample :
    Chain.sumValues (Chain.Blockchain.init "1").balance_table = 500 ∧
    ((Chain.Blockchain.init "1").add_block cexBlock9).2 = none ∧
    Chain.sumValues ((Chain.Blockchain.init "1").add_block cexBlock9).1.balance_table ≠ 500 := by
  decide

/-- C10 (amended): create_block performs no positivity check, returning a
candidate block for every amount at most the own balance, zero and negatives
included; add_block likewise checks no sign and commits every such new,
correctly linked, PoW-valid block whose sender and receiver are keys of the
balance table, moving amount from sender to receiver, so that with distinct
sender and receiver a negative amount strictly increases the sender balance
and strictly decreases the receiver balance; and three chained commits of
amount minus 50 from peer 1 to peer 2 drive the balance of peer 2 to minus
50. -/
theorem c10_no_positivity_check (bc : Chain.Blockchain) (recv nonce : String) (amt : Int)
    (hbal : ¬ bc.get_balance bc.node_id < amt)
    (bc2 : Chain.Blockchain) (b : Chain.Block)
    (hdup : bc2.chain.any (fun e => e.hash = b.hash) = false)
    (hprev : b.prev_hash = bc2.tipHash)
    (hpow : Utils.verify_nonce b.powHash = true)
    (hs : Chain.hasKey bc2.balance_table b.sender = true)
    (hr : Chain.hasKey bc2.balance_table b.receiver = true)
    (hbal2 : ¬ bc2.get_balance b.sender < b.amount) :
    bc.create_block recv amt nonce = some ⟨bc.node_id, recv, amt, nonce, bc.tipHash⟩ ∧
    (bc2.add_block b).2 = some true ∧
    (¬ b.sender = b.receiver →
      (bc2.add_block b).1.get_balance b.sender = bc2.get_balance b.sender - b.amount ∧
      (bc2.add_block b).1.get_balance b.receiver = bc2.get_balance b.receiver + b.amount ∧
      (b.amount < 0 →
        bc2.get_balance b.sender < (bc2.add_block b).1.get_balance b.sender ∧
        (bc2.add_block b).1.get_balance b.receiver < bc2.get_balance b.receiver)) ∧
    c10Final.get_balance "2" = -50 ∧ (-50 : Int) < 0 := by
  obtain ⟨t1, ht1⟩ :=
    Option.isSome_iff_exists.mp (Chain.tadd_isSome hs (-b.amount))
  have hr1 : Chain.hasKey t1 b.receiver = true := by
    rw [Chain.hasKey_tadd ht1]
    exact hr
  obtain ⟨t2, ht2⟩ :=
    Option.isSome_iff_exists.mp (Chain.tadd_isSome hr1 b.amount)
  have hres : bc2.add_block b =
      ({ bc2 with chain := bc2.chain ++ [b], balance_table := t2 }, some true) := by
    simp only [Chain.Blockchain.add_block]
    rw [if_neg (by simp [hdup]), if_neg (fun hh => hh hprev), if_neg (fun hh => hh hpow),
        if_neg hbal2]
    rw [show ({ bc2 with chain := bc2.chain ++ [b] } : Chain.Blockchain).balance_table =
          bc2.balance_table from rfl, ht1]
    dsimp only
    rw [ht2]
  refine ⟨?_, ?_, ?_, by decide, by decide⟩
  · simp only [Chain.Blockchain.create_block]
    rw [if_neg hbal]
  · rw [hres]
  · intro hne
    have hsend : Chain.tget t2 b.sender 0 =
        Chain.tget bc2.balance_table b.sender 0 - b.amount := by
      rw [Chain.tget_tadd_other ht2 hne, Chain.tget_tadd_same ht1]
      ring
    have hrecv : Chain.tget t2 b.receiver 0 =
        Chain.tget bc2.balance_table b.receiver 0 + b.amount := by
      rw [Chain.tget_tadd_same ht2, Chain.tget_tadd_other ht1 (fun hh => hne hh.symm)]
    refine ⟨?_, ?_, ?_⟩
    · rw [hres]
      exact hsend
    · rw [hres]
      exact hrecv
    · intro hneg
      constructor
      · rw [hres]
        show bc2.get_balance b.sender < Chain.tget t2 b.sender 0
        rw [hsend]
        have h0 : Chain.tget bc2.balance_table b.sender 0 = bc2.get_balance b.sender := rfl
        omega
      · rw [hres]
        show Chain.tget t2 b.receiver 0 < bc2.get_balance b.receiver
        rw [hrecv]
        have h0 : Chain.tget bc2.balance_table b.receiver 0 = bc2.get_balance b.receiver := rfl
        omega

/-- Counterexample to C10 as stated: with amount 0, which the balance of 100
covers, and the roster-external receiver 6, create_block returns the
candidate block and the block is new, correctly linked and PoW-valid, yet
add_block does not commit it: the credit raises KeyError on the missing
receiver key (the none outcome) instead of returning success. -/
theorem c10_counterexample :
    (Chain.Blockchain.init "1").create_block "6" 0 "aaaaAAAA" = some cexBlock10 ∧
    ¬ (Chain.Blockchain.init "1").get_balance (Chain.Blockchain.init "1").node_id < 0 ∧
    (Chain.Blockchain.init "1").chain.any (fun e => e.hash = cexBlock10.hash) = false ∧
    cexBlock10.prev_hash = (Chain.Blockchain.init "1").tipHash ∧
    Utils.verify_nonce cexBlock10.powHash = true ∧
    ((Chain.Blockchain.init "1").add_block cexBlock10).2 = none ∧
    ((Chain.Blockchain.init "1").add_block cexBlock10).2 ≠ some true := by
  decide

theorem c10_witness :
    (¬ (Chain.Blockchain.init "1").get_balance (Chain.Blockchain.init "1").node_id < 0) ∧
    ((Chain.Blockchain.init "1").create_block "2" 0 "aaadAAAA" =
        some ⟨(Chain.Blockchain.init "1").node_id, "2", 0, "aaadAAAA",
          (Chain.Blockchain.init "1").tipHash⟩ ∧
      ((Chain.Blockchain.init "1").add_block c10z).2 = some true ∧
      (¬ c10z.sender = c10z.receiver →
        ((Chain.Blockchain.init "1").add_block c10z).1.get_balance c10z.sender =
          (Chain.Blockchain.init "1").get_balance c10z.sender - c10z.amount ∧
        ((Chain.Blockchain.init "1").add_block c10z).1.get_balance c10z.receiver =
          (Chain.Blockchain.init "1").get_balance c10z.receiver + c10z.amount ∧
        (c10z.amount < 0 →
          (Chain.Blockchain.init "1").get_balance c10z.sender <
            ((Chain.Blockchain.init "1").add_block c10z).1.get_balance c10z.sender ∧
          ((Chain.Blockchain.init "1").add_block c10z).1.get_balance c10z.receiver <
            (Chain.Blockchain.init "1").get_balance c10z.receiver)) ∧
      c10Final.get_balance "2" = -50 ∧ (-50 : Int) < 0) ∧
    ((Chain.Blockchain.init "1").create_block "2" (-50) "aaabAAAA" =
        some ⟨(Chain.Blockchain.init "1").node_id, "2", -50, "aaabAAAA",
          (Chain.Blockchain.init "1").tipHash⟩ ∧
      ((Chain.Blockchain.init "1").add_block c10b1).2 = some true ∧
      (¬ c10b1.sender = c10b1.receiver →
        ((Chain.Blockchain.init "1").add_block c10b1).1.get_balance c10b1.sender =
          (Chain.Blockchain.init "1").get_balance c10b1.sender - c10b1.amount ∧
        ((Chain.Blockchain.init "1").add_block c10b1).1.get_balance c10b1.receiver =
          (Chain.Blockchain.init "1").get_balance c10b1.receiver + c10b1.amount ∧
        (c10b1.amount < 0 →
          (Chain.Blockchain.init "1").get_balance c10b1.sender <
            ((Chain.Blockchain.init "1").add_block c10b1).1.get_balance c10b1.sender ∧
          ((Chain.Blockchain.init "1").add_block c10b1).1.get_balance c10b1.receiver <
            (Chain.Blockchain.init "1").get_balance c10b1.receiver)) ∧
      c10Final.get_balance "2" = -50 ∧ (-50 : Int) < 0) :=
  ⟨by decide,
   c10_no_positivity_check (Chain.Blockchain.init "1") "2" "aaadAAAA" 0 (by decide)
     (Chain.Blockchain.init "1") c10z (by decide) (by decide) (by decide) (by decide)
     (by decide) (by decide),
   c10_no_positivity_check (Chain.Blockchain.init "1") "2" "aaabAAAA" (-50) (by decide)
     (Chain.Blockchain.init "1") c10b1 (by decide) (by decide) (by decide) (by decide)
     (by decide) (by decide)⟩

theorem vloop_fun (l : List Chain.Block) :
    ∀ (t : Chain.Table) (bal : String → Int) (ph : String),
      (∀ k, Chain.tget t k 100 = bal k) →
      ((NodeM.validateLoop t ph l).isSome = (SpecC7.specC7Replay bal ph l).isSome) ∧
      (∀ t' f, NodeM.validateLoop t ph l = some t' →
        SpecC7.specC7Replay bal ph l = some f →
        ∀ k, Chain.tget t' k 100 = f k) := by
  induction l with
  | nil =>
    intro t bal ph hbal
    refine ⟨rfl, ?_⟩
    intro t' f ht hf k
    simp only [NodeM.validateLoop, Option.some.injEq] at ht
    simp only [SpecC7.specC7Replay, Option.some.injEq] at hf
    subst ht
    subst hf
    exact hbal k
  | cons b rest ih =>
    intro t bal ph hbal
    simp only [NodeM.validateLoop, SpecC7.specC7Replay]
    rw [show Chain.tget t b.sender 100 = bal b.sender from hbal b.sender]
    by_cases h1 : b.prev_hash = ph
    · by_cases h2 : Utils.verify_nonce b.powHash = true
      · by_cases h3 : bal b.sender < b.amount
        · simp only [if_neg (show ¬ (b.prev_hash ≠ ph) from fun hh => hh h1),
            if_neg (show ¬ (¬ (Utils.verify_nonce b.powHash = true)) from fun hh => hh h2),
            if_pos h3]
          exact ⟨rfl, fun t' f ht hf => by cases ht⟩
        · simp only [if_neg (show ¬ (b.prev_hash ≠ ph) from fun hh => hh h1),
            if_neg (show ¬ (¬ (Utils.verify_nonce b.powHash = true)) from fun hh => hh h2),
            if_neg h3]
          exact ih _ _ b.hash (by
            intro k
            simp only [Chain.tget_tset, hbal])
      · simp only [if_neg (show ¬ (b.prev_hash ≠ ph) from fun hh => hh h1), if_pos h2]
        exact ⟨rfl, fun t' f ht hf => by cases ht⟩
    · simp only [if_pos (show b.prev_hash ≠ ph from h1)]
      exact ⟨rfl, fun t' f ht hf => by cases ht⟩

/-- Counterexample to C7 as stated: the code accepts a single-block candidate
spending 50 from the roster-external id 6, because the replay reads absent
ids with dict get default 100, while the claimed validation with every other
peer-id implicitly at 0 rejects it. -/
theorem c7_counterexample :
    (NodeM.validate_and_update_chain (Chain.Blockchain.init "1") cexChain7 []).isSome = true ∧
    SpecC7.specC7Accepts cexChain7 = false := by
  decide

/-- C7 (amended): validate_and_update_chain accepts a candidate chain exactly
when the replay that reads every never-written peer-id as 100 accepts it; on
acceptance the installed chain is the candidate and the installed balance
table is pointwise the replayed one; and the result never depends on the
balance_table field carried in the response. -/
theorem c7_sync_validation (bc : Chain.Blockchain) (chain : List Chain.Block)
    (t t2 : Chain.Table) :
    ((NodeM.validate_and_update_chain bc chain t).isSome = true ↔
      SpecC7.amendedC7Accepts chain = true) ∧
    (∀ bc2, NodeM.validate_and_update_chain bc chain t = some bc2 →
      bc2.chain = chain ∧ bc2.node_id = bc.node_id ∧
      ∃ f, SpecC7.specC7Replay (fun _ => 100) Chain.genesisHash chain = some f ∧
        ∀ k, Chain.tget bc2.balance_table k 100 = f k) ∧
    NodeM.validate_and_update_chain bc chain t = NodeM.validate_and_update_chain bc chain t2 := by
  have hinit : ∀ k, Chain.tget Chain.initialBalances k 100 = (fun _ => (100 : Int)) k := by
    intro k
    simp only [Chain.initialBalances, Chain.tget]
    split_ifs <;> rfl
  obtain ⟨heq, hpt⟩ :=
    vloop_fun chain Chain.initialBalances (fun _ => 100) Chain.genesisHash hinit
  refine ⟨?_, ?_, rfl⟩
  · simp only [NodeM.validate_and_update_chain, SpecC7.amendedC7Accepts]
    rcases hL : NodeM.validateLoop Chain.initialBalances Chain.genesisHash chain with _ | t4 <;>
      rw [hL] at heq
    · simp only [Option.isSome_none, Bool.false_eq_true, false_iff] at heq ⊢
      rw [← heq]
      simp
    · simp only [Option.isSome_some] at heq
      simp [← heq]
  · intro bc2 hbc2
    simp only [NodeM.validate_and_update_chain] at hbc2
    rcases hL : NodeM.validateLoop Chain.initialBalances Chain.genesisHash chain with _ | t4 <;>
      rw [hL] at hbc2
    · cases hbc2
    · simp only [Option.some.injEq] at hbc2
      subst hbc2
      rw [hL] at heq
      simp only [Option.isSome_some] at heq
      obtain ⟨f, hf⟩ := Option.isSome_iff_exists.mp heq.symm
      exact ⟨rfl, rfl, f, hf, fun k => hpt t4 f hL hf k⟩

theorem c7_witness :
    ((NodeM.validate_and_update_chain (Chain.Blockchain.init "1") c7WChain []).isSome = true ↔
      SpecC7.amendedC7Accepts c7WChain = true) ∧
    (∀ bc2, NodeM.validate_and_update_chain (Chain.Blockchain.init "1") c7WChain [] = some bc2 →
      bc2.chain = c7WChain ∧ bc2.node_id = (Chain.Blockchain.init "1").node_id ∧
      ∃ f, SpecC7.specC7Replay (fun _ => 100) Chain.genesisHash c7WChain = some f ∧
        ∀ k, Chain.tget bc2.balance_table k 100 = f k) ∧
    NodeM.validate_and_update_chain (Chain.Blockchain.init "1") c7WChain [] =
      NodeM.validate_and_update_chain (Chain.Blockchain.init "1") c7WChain [("9", 9)] :=
  c7_sync_validation (Chain.Blockchain.init "1") c7WChain [] [("9", 9)]

theorem struct_of_vloop (l : List Chain.Block) :
    ∀ (t : Chain.Table) (ph : String), (NodeM.validateLoop t ph l).isSome = true →
      NodeM.validate_chain_structure ph l = true := by
  induction l with
  | nil => intro t ph _; rfl
  | cons b rest ih =>
    intro t ph h
    simp only [NodeM.validateLoop] at h
    simp only [NodeM.validate_chain_structure]
    by_cases h1 : b.prev_hash = ph
    · rw [if_neg (fun hh => hh h1)] at h ⊢
      by_cases h2 : Utils.verify_nonce b.powHash = true
      · rw [if_neg (fun hh => hh h2)] at h ⊢
        by_cases h3 : Chain.tget t b.sender 100 < b.amount
        · rw [if_pos h3] at h
          simp at h
        · rw [if_neg h3] at h
          exact ih _ _ h
      · rw [if_pos (fun hh => h2 hh)] at h
        simp at h
    · rw [if_pos (fun hh => h1 hh)] at h
      simp at h

theorem pickLoop_spec (RS : List NodeM.SyncResponse) (L : Nat) :
    ∀ (rs : List NodeM.SyncResponse) (best : Option (List Chain.Block × Chain.Table)) (bl : Nat),
      (∀ r ∈ rs, r ∈ RS) →
      bl ≥ L →
      (∀ c t, best = some (c, t) → c.length = bl ∧ bl > L ∧
        NodeM.validate_chain_structure Chain.genesisHash c = true ∧
        ∃ r ∈ RS, c = r.chain_data.map Chain.Block.from_dict) →
      ∀ c t, NodeM.pickLoop rs best bl = some (c, t) →
        c.length ≥ bl ∧ c.length > L ∧
        NodeM.validate_chain_structure Chain.genesisHash c = true ∧
        (∃ r ∈ RS, c = r.chain_data.map Chain.Block.from_dict) ∧
        (∀ r2 ∈ rs, NodeM.validate_chain_structure Chain.genesisHash
            (r2.chain_data.map Chain.Block.from_dict) = true →
          r2.chain_data.length ≤ c.length) := by
  intro rs
  induction rs with
  | nil =>
    intro best bl _ _ hbest c t hres
    simp only [NodeM.pickLoop] at hres
    obtain ⟨hlen, hgt, hstruct, horigin⟩ := hbest c t hres
    exact ⟨hlen.ge, by omega, hstruct, horigin,
      fun r2 hr2 _ => absurd hr2 (List.not_mem_nil r2)⟩
  | cons r rest ih =>
    intro best bl hsub hge hbest c t hres
    simp only [NodeM.pickLoop] at hres
    by_cases hlen : r.chain_data.length > bl
    · rw [if_pos hlen] at hres
      by_cases hstr : NodeM.validate_chain_structure Chain.genesisHash
          (r.chain_data.map Chain.Block.from_dict) = true
      · rw [if_pos hstr] at hres
        obtain ⟨hge2, hgt2, hstruct2, horigin2, hmax2⟩ :=
          ih (some (r.chain_data.map Chain.Block.from_dict, r.balance_table))
            r.chain_data.length
            (fun x hx => hsub x (List.mem_cons_of_mem r hx))
            (le_of_lt (lt_of_le_of_lt hge hlen))
            (by
              intro c2 t3 hsome
              simp only [Option.some.injEq, Prod.mk.injEq] at hsome
              obtain ⟨hc2, _⟩ := hsome
              subst hc2
              exact ⟨by simp, lt_of_le_of_lt hge hlen, hstr,
                r, hsub r (List.mem_cons_self r rest), rfl⟩)
            c t hres
        refine ⟨by omega, hgt2, hstruct2, horigin2, ?_⟩
        intro r2 hr2 hs2
        rcases List.mem_cons.mp hr2 with rfl | hr2b
        · exact hge2
        · exact hmax2 r2 hr2b hs2
      · rw [if_neg hstr] at hres
        obtain ⟨hge2, hgt2, hstruct2, horigin2, hmax2⟩ :=
          ih best bl (fun x hx => hsub x (List.mem_cons_of_mem r hx)) hge hbest c t hres
        refine ⟨hge2, hgt2, hstruct2, horigin2, ?_⟩
        intro r2 hr2 hs2
        rcases List.mem_cons.mp hr2 with rfl | hr2b
        · exact absurd hs2 hstr
        · exact hmax2 r2 hr2b hs2
    · rw [if_neg hlen] at hres
      obtain ⟨hge2, hgt2, hstruct2, horigin2, hmax2⟩ :=
        ih best bl (fun x hx => hsub x (List.mem_cons_of_mem r hx)) hge hbest c t hres
      refine ⟨hge2, hgt2, hstruct2, horigin2, ?_⟩
      intro r2 hr2 hs2
      rcases List.mem_cons.mp hr2 with rfl | hr2b
      · omega
      · exact hmax2 r2 hr2b hs2

/-- C8: at the end of a sync window the chain either stays exactly the local
chain, or is replaced by the reconstructed chain of one collected response
that passes the full replay validation, is strictly longer than the local
chain, and is at least as long as every fully valid candidate among all
collected responses; a candidate merely equal in length is never adopted. -/
theorem c8_longest_chain_adoption (bc : Chain.Blockchain) (rs : List NodeM.SyncResponse) :
    NodeM.process_sync_responses bc rs = bc ∨
    (∃ r ∈ rs,
      (NodeM.process_sync_responses bc rs).chain = r.chain_data.map Chain.Block.from_dict ∧
      NodeM.full_chain_valid (NodeM.process_sync_responses bc rs).chain = true ∧
      (NodeM.process_sync_responses bc rs).chain.length > bc.chain.length ∧
      ∀ r2 ∈ rs, NodeM.full_chain_valid (r2.chain_data.map Chain.Block.from_dict) = true →
        r2.chain_data.length ≤ (NodeM.process_sync_responses bc rs).chain.length) := by
  rcases hp : NodeM.pickLoop rs none bc.chain.length with _ | ct
  · left
    simp only [NodeM.process_sync_responses, hp]
  · obtain ⟨c, t⟩ := ct
    obtain ⟨hge, hgt, hstruct, ⟨r, hrRS, hrc⟩, hmax⟩ :=
      pickLoop_spec rs bc.chain.length rs none bc.chain.length (fun x hx => hx)
        (le_refl _) (fun c2 t2 h => by cases h) c t hp
    rcases hv : NodeM.validate_and_update_chain bc c t with _ | bc2
    · left
      simp only [NodeM.process_sync_responses, hp, hv]
    · have hproc : NodeM.process_sync_responses bc rs = bc2 := by
        simp only [NodeM.process_sync_responses, hp, hv]
      have hchain : bc2.chain = c ∧ NodeM.full_chain_valid c = true := by
        simp only [NodeM.validate_and_update_chain] at hv
        rcases hL : NodeM.validateLoop Chain.initialBalances Chain.genesisHash c with _ | t4 <;>
          rw [hL] at hv
        · cases hv
        · simp only [Option.some.injEq] at hv
          subst hv
          exact ⟨rfl, by simp [NodeM.full_chain_valid, hL]⟩
      right
      refine ⟨r, hrRS, ?_, ?_, ?_, ?_⟩
      · rw [hproc, hchain.1, hrc]
      · rw [hproc, hchain.1]
        exact hchain.2
      · rw [hproc, hchain.1]
        exact hgt
      · intro r2 hr2 hf2
        rw [hproc, hchain.1]
        exact hmax r2 hr2 (struct_of_vloop _ _ _ hf2)

theorem c8_witness :
    NodeM.process_sync_responses (Chain.Blockchain.init "1") [] = Chain.Blockchain.init "1" ∨
    (∃ r ∈ ([] : List NodeM.SyncResponse),
      (NodeM.process_sync_responses (Chain.Blockchain.init "1") []).chain =
        r.chain_data.map Chain.Block.from_dict ∧
      NodeM.full_chain_valid
        (NodeM.process_sync_responses (Chain.Blockchain.init "1") []).chain = true ∧
      (NodeM.process_sync_responses (Chain.Blockchain.init "1") []).chain.length >
        (Chain.Blockchain.init "1").chain.length ∧
      ∀ r2 ∈ ([] : List NodeM.SyncResponse),
        NodeM.full_chain_valid (r2.chain_data.map Chain.Block.from_dict) = true →
        r2.chain_data.length ≤
          (NodeM.process_sync_responses (Chain.Blockchain.init "1") []).chain.length) :=
  c8_longest_chain_adoption (Chain.Blockchain.init "1") []

theorem c2_witness :
    c2P.my_proposal_val = some c2Blk ∧
    c2P.is_leader = false ∧
    (∃ st2 acc, Paxos.handle_promise c2P c2Msg 0 = some (st2, some acc) ∧
      ((∀ e ∈ Paxos.dictSet c2P.promises c2Msg.sender (c2Msg.accepted_ballot, c2Msg.accepted_val),
          e.2.2 = none) → acc.val = c2Blk.to_dict) ∧
      ((∃ e ∈ Paxos.dictSet c2P.promises c2Msg.sender (c2Msg.accepted_ballot, c2Msg.accepted_val),
          e.2.2.isSome = true) →
        ∃ f ∈ Paxos.dictSet c2P.promises c2Msg.sender (c2Msg.accepted_ballot, c2Msg.accepted_val),
          f.2.2 = some acc.val ∧
          ∀ g ∈ Paxos.dictSet c2P.promises c2Msg.sender (c2Msg.accepted_ballot, c2Msg.accepted_val),
            g.2.2.isSome = true → Paxos.compare_ballots g.2.1 f.2.1 ≠ 1)) :=
  ⟨rfl, rfl,
   Paxos.c2_handle_promise_value_choice c2P c2Msg 0 c2Blk rfl rfl (by decide) (by decide) (by decide)⟩
